import Mathlib

/-!
Verification of the arkGachaSimulator core against its specification.

The TypeScript sources are shallowly embedded as follows:
* random draws (`Math.floor(Math.random()*100)+1`) become an explicit entropy
  list `List (Fin 100)` consumed one element per loop iteration; a loop that
  runs out of entropy returns `none`;
* the uniform `[0,1)` randoms of `weightedChoice` and of the GPU path become
  explicit `ℚ` parameters;
* IEEE floating point arithmetic of the probability-table construction and of
  the statistics is embedded as exact `ℚ` arithmetic (the ideal real-number
  semantics of the formulas in the source);
* JavaScript objects used as maps (`drawsBucket`, `characterCounts`,
  `statistic`) become association lists `List (key × ℕ)` in property-insertion
  order, with updates mirroring the source's `if (m[k]) m[k]++ else m[k] = 1`
  pattern.
-/

namespace ArkGacha

/-! ### Association-list helpers (JavaScript object maps) -/

/-- Value stored under key `k`, `0` when the key is absent (mirrors the numeric
read `m[k] || 0` / the falsiness of a missing property). -/
def lookupD [DecidableEq α] : List (α × ℕ) → α → ℕ
  | [], _ => 0
  | (a, v) :: t, k => if a = k then v else lookupD t k

/-- Add `n` to the entry of key `k`, appending `(k, n)` when the key is absent
(mirrors `if (!m[k]) m[k] = 0; m[k] += n`, which keeps the property position
of an existing key and appends a fresh key at the end). -/
def addAssoc [DecidableEq α] : List (α × ℕ) → α → ℕ → List (α × ℕ)
  | [], k, n => [(k, n)]
  | (a, v) :: t, k, n => if a = k then (a, v + n) :: t else (a, v) :: addAssoc t k n

/-- Add `1` to the first entry of key `k`; identity when the key is absent. -/
def bumpFirst [DecidableEq α] : List (α × ℕ) → α → List (α × ℕ)
  | [], _ => []
  | (a, v) :: t, k => if a = k then (a, v + 1) :: t else (a, v) :: bumpFirst t k

/-- Mirrors `if (bucket[draws]) { bucket[draws]++ } else { bucket[draws] = 1 }`:
the truthiness test on the stored count decides between in-place increment and
appending a fresh key. -/
def bucketIncr (b : List (ℕ × ℕ)) (d : ℕ) : List (ℕ × ℕ) :=
  if lookupD b d ≠ 0 then bumpFirst b d else b ++ [(d, 1)]

/-- Sum of all stored counts of a map. -/
def valuesSum (b : List (α × ℕ)) : ℕ :=
  (b.map Prod.snd).sum

/-- Keys of a map, in property order. -/
def mapKeys (b : List (α × β)) : List α :=
  b.map Prod.fst

/-! ### The pity trial algorithm `gatcha` (src/unnamed/part_000 lines 11-31,
src/unnamed/part_003 lines 71-91)

`gatcha` is embedded over an entropy list: each loop iteration consumes one
element `r : Fin 100`, realising the draw `chuhuo = r.val + 1 ∈ [1,100]`.
The result is `some (value, drawsConsumed, remainingEntropy)`, or `none` if
the entropy list is exhausted before the loop returns. -/

/-- Second loop of `gatcha` (`while (true) { currentProb += 2; ... }`): the
probability is bumped before the draw, and `xunfang` is incremented only
after a missed draw. -/
def gatchaP2 : List (Fin 100) → ℕ → ℕ → ℕ → ℕ → Option (ℕ × ℕ × List (Fin 100))
  | [], _, _, _, _ => none
  | r :: rest, xunfang, currentProb, basePity, draws =>
    let prob := currentProb + 2
    let chuhuo := r.val + 1
    if chuhuo ≤ prob then some (xunfang - basePity, draws + 1, rest)
    else gatchaP2 rest (xunfang + 1) prob basePity (draws + 1)

/-- First loop of `gatcha` (`while (xunfang < 50)`): `xunfang` is incremented
before the hit test, and the probability stays at its initial value. -/
def gatchaP1 : List (Fin 100) → ℕ → ℕ → ℕ → ℕ → Option (ℕ × ℕ × List (Fin 100))
  | [], xunfang, currentProb, basePity, draws =>
    if xunfang < 50 then none
    else gatchaP2 [] xunfang currentProb basePity draws
  | r :: rest, xunfang, currentProb, basePity, draws =>
    if xunfang < 50 then
      let chuhuo := r.val + 1
      let x := xunfang + 1
      if chuhuo ≤ currentProb then some (x - basePity, draws + 1, rest)
      else gatchaP1 rest x currentProb basePity (draws + 1)
    else gatchaP2 (r :: rest) xunfang currentProb basePity draws

/-- Embedding of `gatcha(basePity)`: starts at `xunfang = basePity` with
`currentProb = basePity < 50 ? 2 : 2 + (basePity - 50) * 2`. -/
def gatcha (basePity : ℕ) (rands : List (Fin 100)) : Option (ℕ × ℕ × List (Fin 100)) :=
  gatchaP1 rands basePity (if basePity < 50 then 2 else 2 + (basePity - 50) * 2) basePity 0

/-! ### The weighted outcome selector and the trial runner
(src/unnamed/part_000 lines 39-115, src/unnamed/part_003 lines 99-171) -/

/-- One prize category of the operator configuration:
`{ name: { weight, target } }`. -/
structure OperatorCfg where
  name : String
  weight : ℚ
  target : ℕ
  deriving DecidableEq

/-- Walk of `weightedChoice`: `random -= weights[i]; if (random <= 0) return
items[i]`, with the last item as fallback. -/
def wcWalk : List (String × ℚ) → ℚ → String → String
  | [], _, fallback => fallback
  | (item, w) :: rest, random, fallback =>
    let random₂ := random - w
    if random₂ ≤ 0 then item else wcWalk rest random₂ fallback

/-- Embedding of `weightedChoice(items, weights)`: the uniform random of
`Math.random()` is the explicit parameter `u ∈ [0,1)`, scaled by the total
weight exactly as in the source. -/
def weightedChoice (items : List String) (weights : List ℚ) (u : ℚ) : String :=
  let totalWeight := weights.foldl (· + ·) 0
  wcWalk (items.zip weights) (u * totalWeight) (items.getLastD "")

/-- Completion test of `chouShuTongJi`: every category either has target `0`
or has reached its target. -/
def checkCompletion (cfg : List OperatorCfg) (statistic : List (String × ℕ)) : Bool :=
  cfg.all fun o => o.target = 0 || decide (o.target ≤ lookupD statistic o.name)

/-- Main loop of `chouShuTongJi`, threading the two entropy sources (draw
randoms for `gatcha`, selection randoms for `weightedChoice`).  `fuel` bounds
the number of loop iterations only; the completion test is evaluated before
fuel is consumed, exactly like the pre-test of the `while` loop.  Returns
`some (total, statistic, iterations)`. -/
def cstLoop (cfg : List OperatorCfg) :
    ℕ → ℕ → ℕ → ℕ → List (String × ℕ) → List (Fin 100) → List ℚ →
    Option (ℕ × List (String × ℕ) × ℕ)
  | fuel, iters, currentPity, total, statistic, gRands, wRands =>
    if checkCompletion cfg statistic then some (total, statistic, iters)
    else
      match fuel with
      | 0 => none
      | fuel' + 1 =>
        match gatcha currentPity gRands with
        | none => none
        | some (drawsThisRound, _, gRest) =>
          match wRands with
          | [] => none
          | u :: wRest =>
            let total₂ := total + drawsThisRound
            let selectedOperator :=
              weightedChoice (cfg.map OperatorCfg.name) (cfg.map OperatorCfg.weight) u
            cstLoop cfg fuel' (iters + 1) 0 total₂
              (addAssoc statistic selectedOperator 1) gRest wRest

/-- Embedding of `chouShuTongJi(operatorConfig, basePity)`: initialises every
category's statistic to `0` and runs the trial loop. -/
def chouShuTongJi (cfg : List OperatorCfg) (basePity : ℕ)
    (fuel : ℕ) (gRands : List (Fin 100)) (wRands : List ℚ) :
    Option (ℕ × List (String × ℕ) × ℕ) :=
  cstLoop cfg fuel 0 basePity 0 (cfg.map fun o => (o.name, 0)) gRands wRands

/-! ### The GPU probability lookup table
(src/unnamed/part_003, `buildProbabilityLookupTable`, lines 591-721)

The `Float32Array` arithmetic is embedded as exact `ℚ` arithmetic.  The table
is represented as functions `ℕ → ℚ` on indices `0 ≤ i < 100`. -/

/-- Per-draw reward probability used by the PMF construction loops:
`0.02` for `pity < 50` and `min(1.0, 0.02 + 0.02 * (pity - 48))` for
`50 ≤ pity < 99` (index 99 is filled with the remaining survival mass and
uses no per-draw probability). -/
def hitProbQ (p : ℕ) : ℚ :=
  if p < 50 then 2 / 100 else min 1 (2 / 100 + 2 / 100 * ((p : ℚ) - 48))

/-- Survival mass before pity index `p`: the running
`survival *= (1 - p)` accumulator of the construction loops. -/
def survQ (p : ℕ) : ℚ :=
  Finset.prod (Finset.range p) fun k => 1 - hitProbQ k

/-- The PMF entries: `pmf[pity] = survival * p` for `pity < 99` and
`pmf[99] = survival`. -/
def pmfQ (p : ℕ) : ℚ :=
  if p < 99 then survQ p * hitProbQ p else survQ 99

/-- The raw CDF: running sums of the PMF. -/
def cdfRawQ (i : ℕ) : ℚ :=
  Finset.sum (Finset.range (i + 1)) pmfQ

/-- The normalised CDF: every entry divided by the last raw entry
(`cdf[i] /= total`). -/
def cdfNQ (i : ℕ) : ℚ :=
  cdfRawQ i / cdfRawQ 99

/-- The final `gachaTable` for a given `basePity`: when `basePity > 0` the
tail entries `[basePity, 100)` are replaced by
`cdf[i] / (1 - gachaTable[basePity-1])` while the head entries keep their
plain normalised values. -/
def gachaTableQ (basePity i : ℕ) : ℚ :=
  if basePity = 0 then cdfNQ i
  else if i < basePity then cdfNQ i
  else cdfNQ i / (1 - cdfNQ (basePity - 1))

/-- Operator-weight CDF of `buildProbabilityLookupTable`: weights normalised
to a PMF, summed to a CDF, with the last entry forced to exactly `1.0`. -/
def categoryCDF (ops : List (String × ℚ)) : List ℚ :=
  let totalWeight := (ops.map Prod.snd).foldl (· + ·) 0
  let pmf := ops.map fun o => o.2 / totalWeight
  let cdf := (pmf.foldl (fun acc x => acc ++ [(acc.getLastD 0) + x]) ([] : List ℚ))
  cdf.dropLast ++ [1]

/-! ### The worker-pool aggregator
(src/src/utils/workerManager.ts, `handleWorkerComplete` lines 239-289) -/

/-- The `result` payload posted by a worker for one completed trial. -/
structure WOutcome where
  totalDraws : ℕ
  characterCounts : List (String × ℕ)
  deriving DecidableEq

/-- The per-run aggregation state held in `activeTasks`. -/
structure TaskState where
  completedSimulations : ℕ
  drawsBucket : List (ℕ × ℕ)
  characterCounts : List (String × ℕ)
  deriving DecidableEq

/-- The fresh aggregation state registered by `runCPUSimulation`. -/
def initTask : TaskState :=
  { completedSimulations := 0, drawsBucket := [], characterCounts := [] }

/-- Aggregation step of `handleWorkerComplete`: bump the completed counter,
bucket the trial's `totalDraws`, and add its per-category counts. -/
def handleWorkerComplete (task : TaskState) (result : WOutcome) : TaskState :=
  { completedSimulations := task.completedSimulations + 1
    drawsBucket := bucketIncr task.drawsBucket result.totalDraws
    characterCounts :=
      result.characterCounts.foldl
        (fun counts e => addAssoc counts e.1 (e.2)) task.characterCounts }

/-- Folding a completion sequence of worker results into the task state. -/
def foldComplete (results : List WOutcome) (task : TaskState) : TaskState :=
  results.foldl handleWorkerComplete task

/-! ### The statistics derivation
(src/src/utils/workerManager.ts, `calculateStatisticalData` lines 493-571)

The statistics are computed over exact `ℚ` arithmetic.  The float indices
`Math.floor(totalCount / 2)`, `Math.floor(totalCount * 0.25)` and
`Math.floor(totalCount * 0.75)` are the natural-number divisions `t / 2`,
`t / 4` and `3 * t / 4` (0.25 and 0.75 are exact binary floats, so the float
products and floors are exact for every realistic trial count).  `sigma` is
the real square root of the returned `varianceQ` radicand. -/

/-- Key order `a.draws - b.draws` used by `.sort((a, b) => a.draws - b.draws)`. -/
def keyLe (a b : ℕ × ℕ) : Prop :=
  a.1 ≤ b.1

instance : DecidableRel keyLe := fun a b => Nat.decLe a.1 b.1

instance : IsTotal (ℕ × ℕ) keyLe := ⟨fun a b => Nat.le_total a.1 b.1⟩

instance : IsTrans (ℕ × ℕ) keyLe := ⟨fun _ _ _ h1 h2 => Nat.le_trans h1 h2⟩

/-- Strict version of `keyLe`; distinct bucket keys sort strictly. -/
def keyLt (a b : ℕ × ℕ) : Prop :=
  a.1 < b.1

instance : IsAntisymm (ℕ × ℕ) keyLt := ⟨fun _ _ h1 h2 => absurd h1 (Nat.lt_asymm h2)⟩

/-- Bucket entries sorted ascending by draws value, as built from
`Object.entries(drawsBucket)` followed by the comparator sort. -/
def sortedEntries (b : List (ℕ × ℕ)) : List (ℕ × ℕ) :=
  List.insertionSort keyLe b

/-- The median walk: `currentCount += count; if (currentCount >= medianIndex)
{ median = draws; break }`, with the mean as default. -/
def medianLoop : List (ℕ × ℕ) → ℕ → ℕ → ℚ → ℚ
  | [], _, _, dflt => dflt
  | (d, c) :: rest, currentCount, idx, dflt =>
    let currentCount₂ := currentCount + c
    if idx ≤ currentCount₂ then (d : ℚ) else medianLoop rest currentCount₂ idx dflt

/-- The combined p25/p75 walk, including the `p25 === mean` sentinel guard of
the source: `if (p25 === mean && currentCount >= p25Index) p25 = draws;
if (currentCount >= p75Index) { p75 = draws; break }`. -/
def pqLoop : List (ℕ × ℕ) → ℕ → ℚ → ℚ → ℕ → ℕ → ℚ → ℚ × ℚ
  | [], _, p25, p75, _, _, _ => (p25, p75)
  | (d, c) :: rest, currentCount, p25, p75, i25, i75, mean =>
    let currentCount₂ := currentCount + c
    let p25₂ := if p25 = mean ∧ i25 ≤ currentCount₂ then (d : ℚ) else p25
    if i75 ≤ currentCount₂ then (p25₂, (d : ℚ))
    else pqLoop rest currentCount₂ p25₂ p75 i25 i75 mean

/-- Result record of `calculateStatisticalData` (the σ-range fields, which
only post-process `mean` and `sigma`, are outside the verified claims;
`sigma` itself is `Real.sqrt varianceQ`, kept as the exact radicand). -/
structure StatData where
  mean : ℚ
  median : ℚ
  p25 : ℚ
  p75 : ℚ
  varianceQ : ℚ
  deriving DecidableEq

/-- Embedding of `calculateStatisticalData(drawsBucket)`. -/
def calculateStatisticalData (b : List (ℕ × ℕ)) : StatData :=
  let bucketEntries := sortedEntries b
  let totalCount := bucketEntries.foldl (fun sum e => sum + e.2) (0 : ℕ)
  let mean := (bucketEntries.foldl (fun sum e => sum + (e.1 : ℚ) * (e.2 : ℚ)) 0) / (totalCount : ℚ)
  let medianIndex := totalCount / 2
  let median := medianLoop bucketEntries 0 medianIndex mean
  let p25Index := totalCount / 4
  let p75Index := 3 * totalCount / 4
  let pq := pqLoop bucketEntries 0 mean mean p25Index p75Index mean
  let variance :=
    (bucketEntries.foldl (fun sum e => sum + (e.2 : ℚ) * ((e.1 : ℚ) - mean) ^ 2) 0) / (totalCount : ℚ)
  { mean := mean, median := median, p25 := pq.1, p75 := pq.2, varianceQ := variance }

/-! ### The GPU result-processing loop
(src/src/utils/workerManager.ts, `runGPUSimulation` lines 618-728)

`results.pop()` consumes the GPU batch from its tail, so the loop is embedded
over the batch in pop order.  The per-trial accumulator (`operator` table and
`totalDraws`) is reset whenever a trial completes; a batch that runs out
mid-trial abandons the accumulator (`break` out of `for(;;)`, then the
`while` guard fails). -/

/-- One decoded GPU lane result `{name, draws}`. -/
structure GpuResult where
  name : String
  draws : ℕ
  deriving DecidableEq

/-- Aggregation state of `runGPUSimulation`. -/
structure GpuAgg where
  drawsBucket : List (ℕ × ℕ)
  characterCounts : List (String × ℕ)
  currentSim : ℕ
  deriving DecidableEq

/-- Fresh state at the top of `runGPUSimulation`. -/
def initAgg : GpuAgg :=
  { drawsBucket := [], characterCounts := [], currentSim := 0 }

/-- The per-category targets are consulted through the (sorted) operator
configuration; the trial accumulator is complete when every configured
category has reached its target. -/
def gpuTrialDone (cfg : List OperatorCfg) (operatorTable : List (String × ℕ)) : Bool :=
  cfg.all fun o => decide (o.target ≤ lookupD operatorTable o.name)

/-- Inner result-processing of one GPU batch (`while (results.length > 0)`
wrapping the `for(;;)` pop loop), given in pop order.  On trial completion
before `currentSim` reaches `n`, the accumulator restarts; on reaching `n`
the remaining results are drained and discarded. -/
def gpuLoop (cfg : List OperatorCfg) (n : ℕ) :
    List GpuResult → GpuAgg → List (String × ℕ) → ℕ → GpuAgg
  | [], st, _, _ => st
  | r :: rest, st, operatorTable, totalDraws =>
    let (operatorTable₂, totalDraws₂, st₂) :=
      if (cfg.map OperatorCfg.name).contains r.name then
        (addAssoc operatorTable r.name 1, totalDraws + r.draws,
          { st with characterCounts := addAssoc st.characterCounts r.name 1 })
      else (operatorTable, totalDraws, st)
    if gpuTrialDone cfg operatorTable₂ then
      let st₃ :=
        { st₂ with
          drawsBucket := bucketIncr st₂.drawsBucket totalDraws₂
          currentSim := st₂.currentSim + 1 }
      if n ≤ st₃.currentSim then st₃
      else gpuLoop cfg n rest st₃ (cfg.map fun o => (o.name, 0)) 0
    else gpuLoop cfg n rest st₂ operatorTable₂ totalDraws₂

/-- The outer batch loop of `runGPUSimulation`
(`for (let currentSim = 0; currentSim < totalSimulations;)`): a new batch is
fetched and processed only while trials remain, each batch starting with a
fresh per-trial accumulator. -/
def gpuRun (cfg : List OperatorCfg) (n : ℕ) (batches : List (List GpuResult))
    (st : GpuAgg) : GpuAgg :=
  batches.foldl
    (fun acc batch =>
      if acc.currentSim < n then gpuLoop cfg n batch acc (cfg.map fun o => (o.name, 0)) 0
      else acc)
    st

/-! ### Run-level control flow
(src/src/utils/workerManager.ts, `runSimulation` lines 586-613,
`runGPUSimulation` catch lines 723-727, `runCPUSimulation` lines 733-771) -/

/-- The statistics bundle returned to the caller (fields beyond the verified
claims omitted). -/
structure SimStatsM where
  drawsBucket : List (ℕ × ℕ)
  characterCounts : List (String × ℕ)
  totalSimulations : ℕ
  deriving DecidableEq

/-- The CPU worker-pool run: fold the `n` worker results into a fresh task
state; `completeTask` reports `totalSimulations` from the task registration,
i.e. the requested count. -/
def runCPUSimulationModel (n : ℕ) (outcomes : List WOutcome) : SimStatsM :=
  let final := foldComplete outcomes initTask
  { drawsBucket := final.drawsBucket
    characterCounts := final.characterCounts
    totalSimulations := n }

/-- The GPU run with its catch handler: when the GPU backend fails
(`gpuFails = true`), the partially aggregated local state is discarded and
the whole requested count is re-run on the worker pool
(`return this.runCPUSimulation(totalSimulations, ...)`). -/
def runGPUSimulationModel (cfg : List OperatorCfg) (n : ℕ)
    (batches : List (List GpuResult)) (gpuFails : Bool)
    (cpuOutcomes : List WOutcome) : SimStatsM :=
  if gpuFails then runCPUSimulationModel n cpuOutcomes
  else
    let agg := gpuRun cfg n batches initAgg
    { drawsBucket := agg.drawsBucket
      characterCounts := agg.characterCounts
      totalSimulations := n }

/-- Weight order used by `runSimulation`'s
`sort(([, a], [, b]) => a.weight - b.weight)`. -/
def weightLe (a b : OperatorCfg) : Prop :=
  a.weight ≤ b.weight

instance : DecidableRel weightLe := fun a b => inferInstanceAs (Decidable (a.weight ≤ b.weight))

instance : IsTotal OperatorCfg weightLe := ⟨fun a b => le_total a.weight b.weight⟩

instance : IsTrans OperatorCfg weightLe := ⟨fun _ _ _ h1 h2 => le_trans h1 h2⟩

/-- Strict version of `weightLe`; pairwise-distinct weights sort strictly. -/
def weightLt (a b : OperatorCfg) : Prop :=
  a.weight < b.weight

instance : IsAntisymm OperatorCfg weightLt := ⟨fun _ _ h1 h2 => absurd h1 (lt_asymm h2)⟩

/-- Embedding of the configuration re-ordering of `runSimulation`: a stable
ascending sort by weight (JavaScript `Array.prototype.sort` is stable, and
insertion sort realises exactly the stable ascending order). -/
def sortByWeight (cfg : List OperatorCfg) : List OperatorCfg :=
  List.insertionSort weightLe cfg

/-- The operator list handed to the GPU path by `runGPUSimulation`
(`Object.keys(operatorConfig).map(name => ({name, weight}))` over the sorted
configuration). -/
def gpuOperators (cfg : List OperatorCfg) : List (String × ℚ) :=
  (sortByWeight cfg).map fun o => (o.name, o.weight)

/-! ### Definitions modelled from the specification's words, for comparison
with the embedded source functions -/

/-- Modelled from the spec: the "cumulative-count walk" — the draws value of
the first sorted bucket entry whose running count reaches the `k`-th
element. -/
def specWalkFrom : List (ℕ × ℕ) → ℕ → ℕ → Option ℕ
  | [], _, _ => none
  | (d, c) :: rest, cum, k => if k ≤ cum + c then some d else specWalkFrom rest (cum + c) k

/-- Modelled from the spec: the weighted mean `Σ(draws×count)/total`. -/
def specMean (entries : List (ℕ × ℕ)) : ℚ :=
  ((entries.map fun e => (e.1 : ℚ) * (e.2 : ℚ)).sum) / (((entries.map Prod.snd).sum : ℕ) : ℚ)

/-- Modelled from the spec: the weighted population variance
`Σ(count×(draws−mean)²)/total`. -/
def specVariance (entries : List (ℕ × ℕ)) (mean : ℚ) : ℚ :=
  ((entries.map fun e => (e.2 : ℚ) * ((e.1 : ℚ) - mean) ^ 2).sum) /
    (((entries.map Prod.snd).sum : ℕ) : ℚ)

/-- Modelled from the spec: the per-draw reward probability of the pity
model, `2%` for `p < 50` and `min(100%, 2% + 2%×(p−49))` for `50 ≤ p < 99`. -/
def specHitProb (p : ℕ) : ℚ :=
  if p < 50 then 2 / 100 else min 1 (2 / 100 + 2 / 100 * ((p : ℚ) - 49))

/-! ## Theorems -/

/-! ### Helper lemmas on the association-list maps -/

theorem lookupD_addAssoc [DecidableEq α] (b : List (α × ℕ)) (k k' : α) (n : ℕ) :
    lookupD (addAssoc b k n) k' = lookupD b k' + if k = k' then n else 0 := by
  induction b with
  | nil => by_cases h : k = k' <;> simp [addAssoc, lookupD, h]
  | cons p t ih =>
    obtain ⟨a, v⟩ := p
    by_cases hak : a = k
    · subst hak
      by_cases hk' : a = k' <;> simp [addAssoc, lookupD, hk']
    · rw [addAssoc, if_neg hak]
      by_cases hk' : a = k'
      · have hkk' : ¬(k = k') := fun h => hak (hk'.trans h.symm)
        simp [lookupD, hk', hkk']
      · simp [lookupD, hk', ih]

theorem valuesSum_addAssoc [DecidableEq α] (b : List (α × ℕ)) (k : α) (n : ℕ) :
    valuesSum (addAssoc b k n) = valuesSum b + n := by
  induction b with
  | nil => simp [addAssoc, valuesSum]
  | cons p t ih =>
    obtain ⟨a, v⟩ := p
    by_cases hak : a = k <;> simp [addAssoc, valuesSum, hak] at * <;> omega

theorem valuesSum_bumpFirst (b : List (ℕ × ℕ)) (d : ℕ) (h : lookupD b d ≠ 0) :
    valuesSum (bumpFirst b d) = valuesSum b + 1 := by
  induction b with
  | nil => simp [lookupD] at h
  | cons p t ih =>
    obtain ⟨a, v⟩ := p
    by_cases had : a = d
    · simp [bumpFirst, had, valuesSum]
      omega
    · simp [lookupD, had] at h
      simp [bumpFirst, had, valuesSum] at *
      omega

theorem valuesSum_bucketIncr (b : List (ℕ × ℕ)) (d : ℕ) :
    valuesSum (bucketIncr b d) = valuesSum b + 1 := by
  rw [bucketIncr]
  by_cases h : lookupD b d ≠ 0
  · simp [h, valuesSum_bumpFirst b d h]
  · simp [h, valuesSum]

/-! ### Helper lemmas for the worker-pool fold and the GPU loop -/

theorem foldComplete_counts (results : List WOutcome) :
    ∀ task : TaskState,
      valuesSum (foldComplete results task).drawsBucket =
          valuesSum task.drawsBucket + results.length ∧
        (foldComplete results task).completedSimulations =
          task.completedSimulations + results.length := by
  induction results with
  | nil => intro task; simp [foldComplete]
  | cons r rest ih =>
    intro task
    have step : foldComplete (r :: rest) task = foldComplete rest (handleWorkerComplete task r) := by
      simp [foldComplete, List.foldl_cons]
    rw [step]
    obtain ⟨h1, h2⟩ := ih (handleWorkerComplete task r)
    refine ⟨?_, ?_⟩
    · rw [h1]
      simp [handleWorkerComplete, valuesSum_bucketIncr]
      omega
    · rw [h2]
      simp [handleWorkerComplete]
      omega

theorem gpuLoop_sum_invariant (cfg : List OperatorCfg) (n : ℕ) (results : List GpuResult) :
    ∀ (st : GpuAgg) (opT : List (String × ℕ)) (td : ℕ),
      valuesSum st.drawsBucket = st.currentSim →
      valuesSum (gpuLoop cfg n results st opT td).drawsBucket =
        (gpuLoop cfg n results st opT td).currentSim := by
  induction results with
  | nil => intro st opT td h; simpa [gpuLoop] using h
  | cons r rest ih =>
    intro st opT td h
    rw [gpuLoop]
    by_cases hk : (cfg.map OperatorCfg.name).contains r.name
    all_goals simp only [hk, if_true, if_false, Bool.false_eq_true]
    all_goals split
    · split
      · simp [valuesSum_bucketIncr, h]
      · exact ih _ _ _ (by simp [valuesSum_bucketIncr, h])
    · exact ih _ _ _ (by simpa using h)
    · split
      · simp [valuesSum_bucketIncr, h]
      · exact ih _ _ _ (by simp [valuesSum_bucketIncr, h])
    · exact ih _ _ _ h

theorem gpuRun_sum_invariant (cfg : List OperatorCfg) (n : ℕ) (batches : List (List GpuResult)) :
    ∀ st : GpuAgg,
      valuesSum st.drawsBucket = st.currentSim →
      valuesSum (gpuRun cfg n batches st).drawsBucket = (gpuRun cfg n batches st).currentSim := by
  induction batches with
  | nil => intro st h; simpa [gpuRun] using h
  | cons batch rest ih =>
    intro st h
    have step : gpuRun cfg n (batch :: rest) st =
        gpuRun cfg n rest
          (if st.currentSim < n then gpuLoop cfg n batch st (cfg.map fun o => (o.name, 0)) 0
           else st) := by
      simp [gpuRun, List.foldl_cons]
    rw [step]
    split
    · exact ih _ (gpuLoop_sum_invariant cfg n batch st _ _ h)
    · exact ih _ h

/-- Claim C1: for `basePity ∈ [0,99]` the pity trial `gatcha(basePity)` would
have to return a value in `[1, 100−basePity]` and never `0`.  The code
violates this: at `basePity = 99` (and likewise `98`) the second loop draws
one random, hits unconditionally (`currentProb ≥ 100` exceeds every
`chuhuo ∈ [1,100]`) and returns `xunfang − basePity = 0` before `xunfang` is
incremented, so one draw is consumed yet `0` is reported — outside the
claimed interval `[1, 1]`. -/
theorem C1_gatcha_returns_zero_at_hard_pity :
    gatcha 99 [(0 : Fin 100)] = some (0, 1, []) ∧
    gatcha 98 [(99 : Fin 100)] = some (0, 1, []) ∧
    gatcha 50 [(3 : Fin 100)] = some (0, 1, []) ∧
    ¬(1 ≤ 0) := by decide

/-- Claim C2: the batched kernel's PMF construction would have to use the
per-draw probability `min(100%, 2% + 2%×(p−49))` for `50 ≤ p < 99`, matching
`gatcha`.  The code uses `0.02 + 0.02*(pity−48)` instead: at pity position 50
the table assigns `6%` while the spec formula — and the behaviour `gatcha`
realises, whose 51st draw hits exactly when `chuhuo ≤ 4` — gives `4%`.  The
two evaluation runs below show `gatcha`'s draw at position 50 hitting at
`chuhuo = 4` and missing at `chuhuo = 5` (then running to the guaranteed hit
at position 98), so the table's per-draw model differs from `gatcha`'s. -/
theorem C2_table_prob_mismatch_at_pity50 :
    hitProbQ 50 = 6 / 100 ∧
    specHitProb 50 = 4 / 100 ∧
    hitProbQ 50 ≠ specHitProb 50 ∧
    (gatcha 0 (List.replicate 50 (99 : Fin 100) ++ [(3 : Fin 100)])).map
        (fun t => (t.1, t.2.1)) = some (50, 51) ∧
    (gatcha 0 (List.replicate 50 (99 : Fin 100) ++
        (4 : Fin 100) :: List.replicate 48 (99 : Fin 100))).map
        (fun t => (t.1, t.2.1)) = some (98, 99) := by
  have h1 : hitProbQ 50 = 6 / 100 := by
    rw [hitProbQ]
    norm_num [min_def]
  have h2 : specHitProb 50 = 4 / 100 := by
    rw [specHitProb]
    norm_num [min_def]
  refine ⟨h1, h2, ?_, by decide, by decide⟩
  rw [h1, h2]
  norm_num

/-- Claim C3: on both execution paths the sum of all counts in `drawsBucket`
always equals the number of completed trials.  On the CPU worker-pool path,
folding any completion sequence into a fresh task state leaves the bucket sum
and the completed counter both equal to the number of folded results (so the
invariant holds after every fold).  On the GPU path, the bucket sum equals
`currentSim` after processing any batch sequence from the fresh state; a run
that resolves exits its loop exactly when `currentSim = N`, so the bucket then
sums to `N`. -/
theorem C3_bucket_sum_equals_completed_trials :
    (∀ results : List WOutcome,
      valuesSum (foldComplete results initTask).drawsBucket = results.length ∧
        (foldComplete results initTask).completedSimulations = results.length) ∧
    (∀ (cfg : List OperatorCfg) (n : ℕ) (batches : List (List GpuResult)),
      valuesSum (gpuRun cfg n batches initAgg).drawsBucket =
        (gpuRun cfg n batches initAgg).currentSim) := by
  constructor
  · intro results
    have h := foldComplete_counts results initTask
    simpa [initTask, valuesSum] using h
  · intro cfg n batches
    exact gpuRun_sum_invariant cfg n batches initAgg (by simp [initAgg, valuesSum])

/-- Claim C9: when the GPU path fails, `runGPUSimulation`'s catch handler
discards the locally aggregated GPU state and re-runs the full requested
count on the worker pool: whatever GPU batches were produced before the
failure, the returned statistics carry `totalSimulations = N`, a bucket that
is exactly the fold of the `N` CPU worker outcomes (summing to `N`), and
category counters likewise from the CPU fold alone — no partial GPU results
leak into the result. -/
theorem C9_gpu_failure_falls_back_to_cpu
    (cfg : List OperatorCfg) (n : ℕ) (batches : List (List GpuResult))
    (cpuOutcomes : List WOutcome) (hlen : cpuOutcomes.length = n) :
    (runGPUSimulationModel cfg n batches true cpuOutcomes).totalSimulations = n ∧
    (runGPUSimulationModel cfg n batches true cpuOutcomes).drawsBucket =
      (foldComplete cpuOutcomes initTask).drawsBucket ∧
    valuesSum (runGPUSimulationModel cfg n batches true cpuOutcomes).drawsBucket = n ∧
    (runGPUSimulationModel cfg n batches true cpuOutcomes).characterCounts =
      (foldComplete cpuOutcomes initTask).characterCounts := by
  refine ⟨rfl, rfl, ?_, rfl⟩
  have h := (foldComplete_counts cpuOutcomes initTask).1
  simp only [runGPUSimulationModel, runCPUSimulationModel, if_true]
  rw [h]
  simp [initTask, valuesSum, hlen]

/-- Witness for C9 at a concrete failing GPU run: two CPU outcomes for a
requested count of two. -/
theorem C9_gpu_failure_falls_back_to_cpu_witness :
    ([⟨3, [("A", 1)]⟩, ⟨5, [("A", 1)]⟩] : List WOutcome).length = 2 ∧
    ((runGPUSimulationModel [⟨"A", 1, 1⟩] 2 [[⟨"A", 9⟩]] true
        [⟨3, [("A", 1)]⟩, ⟨5, [("A", 1)]⟩]).totalSimulations = 2 ∧
      (runGPUSimulationModel [⟨"A", 1, 1⟩] 2 [[⟨"A", 9⟩]] true
          [⟨3, [("A", 1)]⟩, ⟨5, [("A", 1)]⟩]).drawsBucket =
        (foldComplete [⟨3, [("A", 1)]⟩, ⟨5, [("A", 1)]⟩] initTask).drawsBucket ∧
      valuesSum (runGPUSimulationModel [⟨"A", 1, 1⟩] 2 [[⟨"A", 9⟩]] true
          [⟨3, [("A", 1)]⟩, ⟨5, [("A", 1)]⟩]).drawsBucket = 2 ∧
      (runGPUSimulationModel [⟨"A", 1, 1⟩] 2 [[⟨"A", 9⟩]] true
          [⟨3, [("A", 1)]⟩, ⟨5, [("A", 1)]⟩]).characterCounts =
        (foldComplete [⟨3, [("A", 1)]⟩, ⟨5, [("A", 1)]⟩] initTask).characterCounts) :=
  ⟨rfl, C9_gpu_failure_falls_back_to_cpu [⟨"A", 1, 1⟩] 2 [[⟨"A", 9⟩]]
    [⟨3, [("A", 1)]⟩, ⟨5, [("A", 1)]⟩] rfl⟩

/-- Claim C4 counterexample: with the single category `A` of target quota `0`,
`chouShuTongJi` executes the draw loop zero times (iteration count `0`) and
returns `totalDraws = 0`, refuting "executes the draw loop at least once" and
"totalDraws is a positive integer". -/
theorem C4_counterexample_zero_targets :
    chouShuTongJi [⟨"A", 1, 0⟩] 0 37 [] [] = some (0, [("A", 0)], 0) ∧
    ¬(1 ≤ 0) := by decide

/-- Claim C4 (amended): for every non-empty configuration in which all target
quotas are `0`, the completion pre-test of `chouShuTongJi`'s `while` loop is
already satisfied, so the draw loop executes zero times and the trial returns
`totalDraws = 0` with all statistics at `0` — it does terminate, but without
a single draw. -/
theorem C4_all_zero_targets_returns_zero
    (cfg : List OperatorCfg) (basePity fuel : ℕ) (gRands : List (Fin 100)) (wRands : List ℚ)
    (hne : cfg ≠ []) (hz : ∀ o ∈ cfg, o.target = 0) :
    chouShuTongJi cfg basePity fuel gRands wRands =
      some (0, cfg.map fun o => (o.name, 0), 0) := by
  have hc : checkCompletion cfg (cfg.map fun o => (o.name, 0)) = true := by
    rw [checkCompletion, List.all_eq_true]
    intro o ho
    simp [hz o ho]
  rw [chouShuTongJi, cstLoop.eq_def]
  dsimp only
  rw [hc]
  simp

/-- Witness for the amended C4 at a two-category all-zero-quota
configuration. -/
theorem C4_all_zero_targets_returns_zero_witness :
    (([⟨"A", 2, 0⟩, ⟨"B", 1, 0⟩] : List OperatorCfg) ≠ [] ∧
      ∀ o ∈ ([⟨"A", 2, 0⟩, ⟨"B", 1, 0⟩] : List OperatorCfg), o.target = 0) ∧
    chouShuTongJi [⟨"A", 2, 0⟩, ⟨"B", 1, 0⟩] 7 5 [] [] =
      some (0, [("A", 0), ("B", 0)], 0) :=
  ⟨⟨by decide, by decide⟩,
    C4_all_zero_targets_returns_zero [⟨"A", 2, 0⟩, ⟨"B", 1, 0⟩] 7 5 [] []
      (by decide) (by decide)⟩

/-! ### Helper lemmas on the GPU probability table -/

theorem hitProbQ_nonneg (p : ℕ) : 0 ≤ hitProbQ p := by
  rw [hitProbQ]
  split
  · norm_num
  · rename_i h
    have h50 : (50 : ℚ) ≤ (p : ℚ) := by exact_mod_cast Nat.le_of_not_lt h
    have : (0 : ℚ) ≤ 2 / 100 + 2 / 100 * ((p : ℚ) - 48) := by nlinarith
    exact le_min (by norm_num) this

theorem hitProbQ_le_one (p : ℕ) : hitProbQ p ≤ 1 := by
  rw [hitProbQ]
  split
  · norm_num
  · exact min_le_left _ _

theorem hitProbQ_lt_one (p : ℕ) (hp : p ≤ 96) : hitProbQ p < 1 := by
  rw [hitProbQ]
  split
  · norm_num
  · have h96 : (p : ℚ) ≤ 96 := by exact_mod_cast hp
    have : 2 / 100 + 2 / 100 * ((p : ℚ) - 48) < 1 := by nlinarith
    exact min_lt_iff.mpr (Or.inr this)

theorem survQ_nonneg (p : ℕ) : 0 ≤ survQ p := by
  refine Finset.prod_nonneg fun k _ => ?_
  have := hitProbQ_le_one k
  linarith

theorem survQ_pos (p : ℕ) (hp : p ≤ 97) : 0 < survQ p := by
  refine Finset.prod_pos fun k hk => ?_
  have hk96 : k ≤ 96 := by
    have := Finset.mem_range.mp hk
    omega
  have := hitProbQ_lt_one k hk96
  linarith

theorem pmfQ_nonneg (p : ℕ) : 0 ≤ pmfQ p := by
  rw [pmfQ]
  split
  · exact mul_nonneg (survQ_nonneg p) (hitProbQ_nonneg p)
  · exact survQ_nonneg 99

theorem cdfRawQ_mono {i j : ℕ} (hij : i ≤ j) : cdfRawQ i ≤ cdfRawQ j := by
  refine Finset.sum_le_sum_of_subset_of_nonneg
    (Finset.range_subset.mpr (by omega)) fun k _ _ => pmfQ_nonneg k

theorem cdfRawQ_nonneg (i : ℕ) : 0 ≤ cdfRawQ i :=
  Finset.sum_nonneg fun k _ => pmfQ_nonneg k

theorem pmfQ_eq_sub (p : ℕ) (hp : p < 99) : pmfQ p = survQ p - survQ (p + 1) := by
  rw [pmfQ, if_pos hp, survQ, survQ, Finset.prod_range_succ]
  ring

theorem cdfRawQ_eq_one_sub (i : ℕ) (hi : i ≤ 98) : cdfRawQ i = 1 - survQ (i + 1) := by
  have h : ∀ k ∈ Finset.range (i + 1), pmfQ k = survQ k - survQ (k + 1) := by
    intro k hk
    have := Finset.mem_range.mp hk
    exact pmfQ_eq_sub k (by omega)
  rw [cdfRawQ, Finset.sum_congr rfl h, Finset.sum_range_sub' survQ]
  have h0 : survQ 0 = 1 := by simp [survQ]
  rw [h0]

theorem cdfRawQ_99 : cdfRawQ 99 = 1 := by
  have h : cdfRawQ 99 = cdfRawQ 98 + pmfQ 99 := by
    rw [cdfRawQ, cdfRawQ, Finset.sum_range_succ]
  rw [h, cdfRawQ_eq_one_sub 98 (by omega), pmfQ, if_neg (by omega)]
  ring

theorem cdfNQ_eq_raw (i : ℕ) : cdfNQ i = cdfRawQ i := by
  rw [cdfNQ, cdfRawQ_99, div_one]

theorem cdfRawQ_zero : cdfRawQ 0 = 2 / 100 := by
  rw [cdfRawQ]
  simp [pmfQ, survQ, hitProbQ]

theorem cdfRawQ_lt_one (i : ℕ) (hi : i ≤ 96) : cdfRawQ i < 1 := by
  rw [cdfRawQ_eq_one_sub i (by omega)]
  have := survQ_pos (i + 1) (by omega)
  linarith

theorem cdfRawQ_pos (i : ℕ) : 0 < cdfRawQ i := by
  have h0 : (0 : ℚ) < cdfRawQ 0 := by rw [cdfRawQ_zero]; norm_num
  exact lt_of_lt_of_le h0 (cdfRawQ_mono (Nat.zero_le i))

/-- Claim C5 counterexample: already for `basePity = 1` the re-normalised
table's final entry is `1 / (1 − CDF(0)) = 1 / (1 − 0.02) = 50/49 ≠ 1`, so
the table is not "normalized to 1.0 at `maxPity−1`" after the `basePity > 0`
re-scaling described (and implemented) as a division by `1 − CDF(basePity−1)`. -/
theorem C5_counterexample_tail_not_one :
    gachaTableQ 1 99 = 50 / 49 ∧ (50 / 49 : ℚ) ≠ 1 := by
  constructor
  · rw [gachaTableQ]
    norm_num
    rw [cdfNQ_eq_raw, cdfNQ_eq_raw, cdfRawQ_99, cdfRawQ_zero]
    norm_num
  · norm_num

/-- Claim C5 (amended): for every `basePity ≤ 97` the table
`gachaTableQ basePity` is monotonically non-decreasing on `[0, 100)`; it ends
at exactly `1.0` when `basePity = 0`, while for `basePity ≥ 1` the
re-normalisation leaves the final entry at `1 / (1 − CDF(basePity−1))`, which
is strictly greater than `1` (never `1.0`). -/
theorem C5_gachaTable_monotone_and_tail (bp : ℕ) (hbp : bp ≤ 97) :
    (∀ i j, i ≤ j → j ≤ 99 → gachaTableQ bp i ≤ gachaTableQ bp j) ∧
    gachaTableQ 0 99 = 1 ∧
    (1 ≤ bp →
      gachaTableQ bp 99 = 1 / (1 - cdfNQ (bp - 1)) ∧ 1 < gachaTableQ bp 99) := by
  have htable0 : gachaTableQ 0 99 = 1 := by
    rw [gachaTableQ, if_pos rfl, cdfNQ_eq_raw, cdfRawQ_99]
  by_cases hbp0 : bp = 0
  · subst hbp0
    refine ⟨fun i j hij _ => ?_, htable0, by omega⟩
    simp only [gachaTableQ, if_pos rfl, cdfNQ_eq_raw]
    exact cdfRawQ_mono hij
  · have hbp1 : 1 ≤ bp := Nat.one_le_iff_ne_zero.mpr hbp0
    have hc0 : (0 : ℚ) < cdfNQ (bp - 1) := by
      rw [cdfNQ_eq_raw]
      exact cdfRawQ_pos (bp - 1)
    have hc1 : cdfNQ (bp - 1) < 1 := by
      rw [cdfNQ_eq_raw]
      exact cdfRawQ_lt_one (bp - 1) (by omega)
    have hf : (0 : ℚ) < 1 - cdfNQ (bp - 1) := by linarith
    have hf1 : 1 - cdfNQ (bp - 1) < 1 := by linarith
    refine ⟨fun i j hij _ => ?_, htable0, fun _ => ⟨?_, ?_⟩⟩
    · simp only [gachaTableQ, if_neg hbp0]
      by_cases hi : i < bp
      · by_cases hj : j < bp
        · rw [if_pos hi, if_pos hj, cdfNQ_eq_raw, cdfNQ_eq_raw]
          exact cdfRawQ_mono hij
        · rw [if_pos hi, if_neg hj]
          have h1 : cdfNQ i ≤ cdfNQ j := by
            rw [cdfNQ_eq_raw, cdfNQ_eq_raw]; exact cdfRawQ_mono hij
          have h2 : cdfNQ j ≤ cdfNQ j / (1 - cdfNQ (bp - 1)) := by
            rw [le_div_iff₀ hf]
            have hj0 : 0 ≤ cdfNQ j := by rw [cdfNQ_eq_raw]; exact cdfRawQ_nonneg j
            nlinarith
          linarith
      · have hj : ¬(j < bp) := by omega
        rw [if_neg hi, if_neg hj]
        have h1 : cdfNQ i ≤ cdfNQ j := by
          rw [cdfNQ_eq_raw, cdfNQ_eq_raw]; exact cdfRawQ_mono hij
        exact div_le_div_of_nonneg_right h1 hf.le
    · rw [gachaTableQ, if_neg hbp0, if_neg (by omega), cdfNQ_eq_raw 99, cdfRawQ_99]
    · rw [gachaTableQ, if_neg hbp0, if_neg (by omega), cdfNQ_eq_raw 99, cdfRawQ_99]
      rw [lt_div_iff₀ hf]
      linarith

/-- Witness for the amended C5 at `basePity = 1`. -/
theorem C5_gachaTable_monotone_and_tail_witness :
    1 ≤ 97 ∧
    ((∀ i j, i ≤ j → j ≤ 99 → gachaTableQ 1 i ≤ gachaTableQ 1 j) ∧
      gachaTableQ 0 99 = 1 ∧
      (1 ≤ 1 → gachaTableQ 1 99 = 1 / (1 - cdfNQ 0) ∧ 1 < gachaTableQ 1 99)) :=
  ⟨by omega, C5_gachaTable_monotone_and_tail 1 (by omega)⟩

/-- Claim C6: on the GPU path, reward events of a trial that never completes
would have to contribute nothing to `characterCounts`.  The code increments
`characterCounts` for every popped lane result before the completion check,
and a batch exhausted mid-trial abandons the trial without rolling the
increments back: with category `A` (target 2) and a single one-lane batch,
the run ends with `characterCounts = {A: 1}` although zero trials completed
(`currentSim = 0`, empty bucket). -/
theorem C6_gpu_leaks_partial_trial_counts :
    (gpuRun [⟨"A", 1, 2⟩] 1 [[⟨"A", 10⟩]] initAgg).characterCounts = [("A", 1)] ∧
    (gpuRun [⟨"A", 1, 2⟩] 1 [[⟨"A", 10⟩]] initAgg).currentSim = 0 ∧
    (gpuRun [⟨"A", 1, 2⟩] 1 [[⟨"A", 10⟩]] initAgg).drawsBucket = [] := by decide

/-! ### Helper lemmas for the statistics loops -/

theorem foldl_add_map [AddCommMonoid M] (f : α → M) (S : List α) (a : M) :
    S.foldl (fun s e => s + f e) a = a + (S.map f).sum := by
  induction S generalizing a with
  | nil => simp
  | cons e t ih => simp [ih, add_assoc]

theorem medianLoop_eq_walk (S : List (ℕ × ℕ)) :
    ∀ (cur k : ℕ) (dflt : ℚ) (w : ℕ),
      specWalkFrom S cur k = some w → medianLoop S cur k dflt = (w : ℚ) := by
  induction S with
  | nil => intro cur k dflt w h; simp [specWalkFrom] at h
  | cons e t ih =>
    obtain ⟨d, c⟩ := e
    intro cur k dflt w h
    rw [specWalkFrom] at h
    rw [medianLoop]
    split
    · rename_i hle
      rw [if_pos hle] at h
      simp only [Option.some_inj] at h
      subst h
      rfl
    · rename_i hle
      rw [if_neg hle] at h
      exact ih (cur + c) k dflt w h

theorem specWalkFrom_total (S : List (ℕ × ℕ)) :
    ∀ cur k : ℕ, S ≠ [] → k ≤ cur + valuesSum S → ∃ w, specWalkFrom S cur k = some w := by
  induction S with
  | nil => intro _ _ h; exact absurd rfl h
  | cons e t ih =>
    obtain ⟨d, c⟩ := e
    intro cur k _ hk
    rw [specWalkFrom]
    by_cases hle : k ≤ cur + c
    · exact ⟨d, if_pos hle⟩
    · rw [if_neg hle]
      rcases List.eq_nil_or_concat t with ht | _
      · subst ht
        simp [valuesSum] at hk
        omega
      · refine ih (cur + c) k ?_ ?_
        · rename_i hcat
          obtain ⟨l, a, rfl⟩ := hcat
          simp
        · simp [valuesSum] at hk ⊢
          omega

theorem pqLoop_snd_eq_walk (S : List (ℕ × ℕ)) :
    ∀ (cur : ℕ) (p25a p75a : ℚ) (i25 i75 : ℕ) (mean : ℚ) (w : ℕ),
      specWalkFrom S cur i75 = some w →
      (pqLoop S cur p25a p75a i25 i75 mean).2 = (w : ℚ) := by
  induction S with
  | nil => intro cur _ _ _ _ _ w h; simp [specWalkFrom] at h
  | cons e t ih =>
    obtain ⟨d, c⟩ := e
    intro cur p25a p75a i25 i75 mean w h
    rw [specWalkFrom] at h
    rw [pqLoop]
    split
    · rename_i hle
      rw [if_pos hle] at h
      simp only [Option.some_inj] at h
      subst h
      rfl
    · rename_i hle
      rw [if_neg hle] at h
      exact ih (cur + c) _ p75a i25 i75 mean w h

theorem pqLoop_fst_frozen (S : List (ℕ × ℕ)) :
    ∀ (cur : ℕ) (p25a p75a : ℚ) (i25 i75 : ℕ) (mean : ℚ),
      p25a ≠ mean → (pqLoop S cur p25a p75a i25 i75 mean).1 = p25a := by
  induction S with
  | nil => intro _ _ _ _ _ _ _; rw [pqLoop]
  | cons e t ih =>
    obtain ⟨d, c⟩ := e
    intro cur p25a p75a i25 i75 mean hne
    rw [pqLoop]
    have hguard : (if p25a = mean ∧ i25 ≤ cur + c then (d : ℚ) else p25a) = p25a := by
      rw [if_neg]
      rintro ⟨h, _⟩
      exact hne h
    split
    · simpa using hguard
    · rw [hguard]
      exact ih (cur + c) p25a p75a i25 i75 mean hne

theorem pqLoop_fst_eq_walk (S : List (ℕ × ℕ)) :
    ∀ (cur : ℕ) (p75a : ℚ) (i25 i75 : ℕ) (mean : ℚ) (w : ℕ),
      i25 ≤ i75 → specWalkFrom S cur i25 = some w → (w : ℚ) ≠ mean →
      (pqLoop S cur mean p75a i25 i75 mean).1 = (w : ℚ) := by
  induction S with
  | nil => intro cur _ _ _ _ w _ h _; simp [specWalkFrom] at h
  | cons e t ih =>
    obtain ⟨d, c⟩ := e
    intro cur p75a i25 i75 mean w h2575 h hwne
    rw [specWalkFrom] at h
    rw [pqLoop]
    by_cases h25 : i25 ≤ cur + c
    · rw [if_pos h25] at h
      simp only [Option.some_inj] at h
      subst h
      have hguard : (if mean = mean ∧ i25 ≤ cur + c then (d : ℚ) else mean) = (d : ℚ) := by
        rw [if_pos ⟨rfl, h25⟩]
      split
      · simpa using hguard
      · rw [hguard]
        exact pqLoop_fst_frozen t (cur + c) _ p75a i25 i75 mean hwne
    · rw [if_neg h25] at h
      have h75 : ¬(i75 ≤ cur + c) := by omega
      rw [if_neg h75]
      have hguard : (if mean = mean ∧ i25 ≤ cur + c then (d : ℚ) else mean) = mean := by
        rw [if_neg]
        rintro ⟨_, hc⟩
        exact h25 hc
      rw [hguard]
      exact ih (cur + c) p75a i25 i75 mean w h2575 h hwne

/-- Claim C7 counterexample: on the bucket `{1: 2, 10: 3}` (total 5) the
claimed walk to the `⌈5/2⌉ = 3`-rd element yields `10`, but the code walks to
`Math.floor(5/2) = 2` and returns median `1`. -/
theorem C7_counterexample_median_index :
    (calculateStatisticalData [(10, 3), (1, 2)]).median = 1 ∧
    specWalkFrom (sortedEntries [(10, 3), (1, 2)]) 0 3 = some 10 ∧
    ((1 : ℚ) ≠ (10 : ℚ)) := by decide

/-- Claim C7 (amended): for every non-empty bucket, `calculateStatisticalData`
returns the weighted mean `Σ(draws×count)/total` and the weighted population
variance `Σ(count×(draws−mean)²)/total` (σ being its square root), while the
median, p75 and p25 come from cumulative-count walks to the
`⌊total/2⌋`-th, `⌊total×0.75⌋`-th and `⌊total×0.25⌋`-th elements — floor
indices, not the claimed ceilings — and the p25 walk additionally carries a
sentinel (`p25 === mean`) that is only faithful when the walked value differs
from the exact mean; all three walks are total on a non-empty bucket. -/
theorem C7_statistics_formulas (b : List (ℕ × ℕ))
    (hT : 0 < valuesSum (sortedEntries b)) :
    (calculateStatisticalData b).mean = specMean (sortedEntries b) ∧
    (calculateStatisticalData b).varianceQ =
      specVariance (sortedEntries b) (specMean (sortedEntries b)) ∧
    (∀ w, specWalkFrom (sortedEntries b) 0 (valuesSum (sortedEntries b) / 2) = some w →
      (calculateStatisticalData b).median = (w : ℚ)) ∧
    (∀ w, specWalkFrom (sortedEntries b) 0 (3 * valuesSum (sortedEntries b) / 4) = some w →
      (calculateStatisticalData b).p75 = (w : ℚ)) ∧
    (∀ w, specWalkFrom (sortedEntries b) 0 (valuesSum (sortedEntries b) / 4) = some w →
      (w : ℚ) ≠ specMean (sortedEntries b) →
      (calculateStatisticalData b).p25 = (w : ℚ)) ∧
    (∃ w, specWalkFrom (sortedEntries b) 0 (valuesSum (sortedEntries b) / 2) = some w) ∧
    (∃ w, specWalkFrom (sortedEntries b) 0 (3 * valuesSum (sortedEntries b) / 4) = some w) ∧
    (∃ w, specWalkFrom (sortedEntries b) 0 (valuesSum (sortedEntries b) / 4) = some w) := by
  have htot : (sortedEntries b).foldl (fun sum e => sum + e.2) (0 : ℕ) =
      valuesSum (sortedEntries b) := by
    rw [foldl_add_map (fun e => e.2) (sortedEntries b) 0]
    exact (Nat.zero_add _).trans rfl
  have hmean : (calculateStatisticalData b).mean = specMean (sortedEntries b) := by
    show ((sortedEntries b).foldl (fun sum e => sum + (e.1 : ℚ) * (e.2 : ℚ)) 0) /
        (((sortedEntries b).foldl (fun sum e => sum + e.2) (0 : ℕ) : ℕ) : ℚ) =
      specMean (sortedEntries b)
    rw [foldl_add_map, htot, specMean, zero_add]
    rfl
  have hvar : (calculateStatisticalData b).varianceQ =
      specVariance (sortedEntries b) ((calculateStatisticalData b).mean) := by
    show ((sortedEntries b).foldl
        (fun sum e => sum + (e.2 : ℚ) * ((e.1 : ℚ) - (calculateStatisticalData b).mean) ^ 2) 0) /
        (((sortedEntries b).foldl (fun sum e => sum + e.2) (0 : ℕ) : ℕ) : ℚ) =
      specVariance (sortedEntries b) ((calculateStatisticalData b).mean)
    rw [foldl_add_map, htot, specVariance, zero_add]
    rfl
  have hne : sortedEntries b ≠ [] := by
    intro h
    rw [h] at hT
    simp [valuesSum] at hT
  have hmed0 : (calculateStatisticalData b).median =
      medianLoop (sortedEntries b) 0
        (((sortedEntries b).foldl (fun sum e => sum + e.2) (0 : ℕ)) / 2)
        ((calculateStatisticalData b).mean) := rfl
  have hpq0 : ((calculateStatisticalData b).p25, (calculateStatisticalData b).p75) =
      pqLoop (sortedEntries b) 0 ((calculateStatisticalData b).mean)
        ((calculateStatisticalData b).mean)
        (((sortedEntries b).foldl (fun sum e => sum + e.2) (0 : ℕ)) / 4)
        (3 * ((sortedEntries b).foldl (fun sum e => sum + e.2) (0 : ℕ)) / 4)
        ((calculateStatisticalData b).mean) := rfl
  rw [htot] at hmed0 hpq0
  refine ⟨hmean, hvar.trans (by rw [hmean]), ?_, ?_, ?_, ?_, ?_, ?_⟩
  · intro w hw
    exact hmed0.trans (medianLoop_eq_walk (sortedEntries b) 0 _ _ w hw)
  · intro w hw
    have := congrArg Prod.snd hpq0
    exact this.trans (pqLoop_snd_eq_walk (sortedEntries b) 0 _ _ _ _ _ w hw)
  · intro w hw hwne
    have h2575 : valuesSum (sortedEntries b) / 4 ≤ 3 * valuesSum (sortedEntries b) / 4 :=
      Nat.div_le_div_right (by omega)
    have := congrArg Prod.fst hpq0
    refine this.trans (pqLoop_fst_eq_walk (sortedEntries b) 0 _ _ _ _ w h2575 hw ?_)
    rw [hmean]
    exact hwne
  · exact specWalkFrom_total (sortedEntries b) 0 _ hne (by omega)
  · refine specWalkFrom_total (sortedEntries b) 0 _ hne ?_
    have : 3 * valuesSum (sortedEntries b) / 4 ≤ valuesSum (sortedEntries b) := by omega
    omega
  · exact specWalkFrom_total (sortedEntries b) 0 _ hne (by omega)

/-- Witness for the amended C7 at the bucket `{1: 2, 10: 3}`. -/
theorem C7_statistics_formulas_witness :
    0 < valuesSum (sortedEntries [(1, 2), (10, 3)]) ∧
    ((calculateStatisticalData [(1, 2), (10, 3)]).mean =
        specMean (sortedEntries [(1, 2), (10, 3)]) ∧
      (calculateStatisticalData [(1, 2), (10, 3)]).varianceQ =
        specVariance (sortedEntries [(1, 2), (10, 3)])
          (specMean (sortedEntries [(1, 2), (10, 3)])) ∧
      (∀ w, specWalkFrom (sortedEntries [(1, 2), (10, 3)]) 0
          (valuesSum (sortedEntries [(1, 2), (10, 3)]) / 2) = some w →
        (calculateStatisticalData [(1, 2), (10, 3)]).median = (w : ℚ)) ∧
      (∀ w, specWalkFrom (sortedEntries [(1, 2), (10, 3)]) 0
          (3 * valuesSum (sortedEntries [(1, 2), (10, 3)]) / 4) = some w →
        (calculateStatisticalData [(1, 2), (10, 3)]).p75 = (w : ℚ)) ∧
      (∀ w, specWalkFrom (sortedEntries [(1, 2), (10, 3)]) 0
          (valuesSum (sortedEntries [(1, 2), (10, 3)]) / 4) = some w →
        (w : ℚ) ≠ specMean (sortedEntries [(1, 2), (10, 3)]) →
        (calculateStatisticalData [(1, 2), (10, 3)]).p25 = (w : ℚ)) ∧
      (∃ w, specWalkFrom (sortedEntries [(1, 2), (10, 3)]) 0
          (valuesSum (sortedEntries [(1, 2), (10, 3)]) / 2) = some w) ∧
      (∃ w, specWalkFrom (sortedEntries [(1, 2), (10, 3)]) 0
          (3 * valuesSum (sortedEntries [(1, 2), (10, 3)]) / 4) = some w) ∧
      (∃ w, specWalkFrom (sortedEntries [(1, 2), (10, 3)]) 0
          (valuesSum (sortedEntries [(1, 2), (10, 3)]) / 4) = some w)) :=
  ⟨by decide, C7_statistics_formulas [(1, 2), (10, 3)] (by decide)⟩

/-! ### Helper lemmas for aggregation order-independence -/

theorem lookupD_bumpFirst (b : List (ℕ × ℕ)) (d k : ℕ) (h : lookupD b d ≠ 0) :
    lookupD (bumpFirst b d) k = lookupD b k + if d = k then 1 else 0 := by
  induction b with
  | nil => simp [lookupD] at h
  | cons p t ih =>
    obtain ⟨a, v⟩ := p
    by_cases had : a = d
    · subst had
      rw [bumpFirst, if_pos rfl]
      by_cases hak : a = k
      · subst hak
        simp [lookupD]
      · simp [lookupD, hak, fun hdk : a = k => hak hdk]
    · rw [bumpFirst, if_neg had]
      rw [lookupD, if_neg had] at h
      by_cases hak : a = k
      · subst hak
        have : ¬(d = a) := fun hh => had hh.symm
        simp [lookupD, this]
      · simp [lookupD, hak, ih h]

theorem lookupD_append_single (b : List (ℕ × ℕ)) (d k : ℕ) (h : lookupD b d = 0)
    (hpos : ∀ p ∈ b, p.2 ≠ 0) :
    lookupD (b ++ [(d, 1)]) k = lookupD b k + if d = k then 1 else 0 := by
  induction b with
  | nil => by_cases hdk : d = k <;> simp [lookupD, hdk]
  | cons p t ih =>
    obtain ⟨a, v⟩ := p
    have hhead : v ≠ 0 := hpos (a, v) (List.mem_cons_self _ _)
    have had : ¬(a = d) := by
      intro hh
      rw [lookupD, if_pos hh] at h
      exact hhead h
    rw [lookupD, if_neg had] at h
    by_cases hak : a = k
    · subst hak
      have : ¬(d = a) := fun hh => had hh.symm
      simp [lookupD, this]
    · simp only [List.cons_append, lookupD, if_neg hak]
      exact ih h fun p hp => hpos p (List.mem_cons_of_mem _ hp)

theorem lookupD_bucketIncr (b : List (ℕ × ℕ)) (d k : ℕ) (hpos : ∀ p ∈ b, p.2 ≠ 0) :
    lookupD (bucketIncr b d) k = lookupD b k + if d = k then 1 else 0 := by
  rw [bucketIncr]
  by_cases h : lookupD b d ≠ 0
  · rw [if_pos h]
    exact lookupD_bumpFirst b d k h
  · rw [if_neg h]
    exact lookupD_append_single b d k (by omega) hpos

theorem allPos_bumpFirst (b : List (ℕ × ℕ)) (d : ℕ) (hpos : ∀ p ∈ b, p.2 ≠ 0) :
    ∀ p ∈ bumpFirst b d, p.2 ≠ 0 := by
  induction b with
  | nil => simp [bumpFirst]
  | cons p t ih =>
    obtain ⟨a, v⟩ := p
    intro q hq
    rw [bumpFirst] at hq
    by_cases had : a = d
    · rw [if_pos had] at hq
      rcases List.mem_cons.mp hq with h | h
      · subst h; simp
      · exact hpos q (List.mem_cons_of_mem _ h)
    · rw [if_neg had] at hq
      rcases List.mem_cons.mp hq with h | h
      · subst h; exact hpos (a, v) (List.mem_cons_self _ _)
      · exact ih (fun p hp => hpos p (List.mem_cons_of_mem _ hp)) q h

theorem allPos_bucketIncr (b : List (ℕ × ℕ)) (d : ℕ) (hpos : ∀ p ∈ b, p.2 ≠ 0) :
    ∀ p ∈ bucketIncr b d, p.2 ≠ 0 := by
  rw [bucketIncr]
  split
  · exact allPos_bumpFirst b d hpos
  · intro q hq
    rcases List.mem_append.mp hq with h | h
    · exact hpos q h
    · simp at h
      subst h
      simp

theorem mapKeys_bumpFirst (b : List (ℕ × ℕ)) (d : ℕ) :
    mapKeys (bumpFirst b d) = mapKeys b := by
  induction b with
  | nil => rfl
  | cons p t ih =>
    obtain ⟨a, v⟩ := p
    rw [bumpFirst]
    split
    · rfl
    · simp [mapKeys] at ih ⊢
      exact ih

theorem not_mem_keys_of_lookupD_zero (b : List (ℕ × ℕ)) (k : ℕ)
    (hpos : ∀ p ∈ b, p.2 ≠ 0) (h : lookupD b k = 0) : k ∉ mapKeys b := by
  induction b with
  | nil => simp [mapKeys]
  | cons p t ih =>
    obtain ⟨a, v⟩ := p
    have hhead : v ≠ 0 := hpos (a, v) (List.mem_cons_self _ _)
    have had : ¬(a = k) := by
      intro hh
      rw [lookupD, if_pos hh] at h
      exact hhead h
    rw [lookupD, if_neg had] at h
    simp only [mapKeys, List.map_cons, List.mem_cons]
    rintro (h1 | h1)
    · exact had h1.symm
    · exact ih (fun p hp => hpos p (List.mem_cons_of_mem _ hp)) h h1

theorem nodupKeys_bucketIncr (b : List (ℕ × ℕ)) (d : ℕ)
    (hpos : ∀ p ∈ b, p.2 ≠ 0) (hnd : (mapKeys b).Nodup) :
    (mapKeys (bucketIncr b d)).Nodup := by
  rw [bucketIncr]
  split
  · rw [mapKeys_bumpFirst]
    exact hnd
  · rename_i h
    have hd : d ∉ mapKeys b := not_mem_keys_of_lookupD_zero b d hpos (by omega)
    have : mapKeys (b ++ [(d, 1)]) = mapKeys b ++ [d] := by simp [mapKeys]
    rw [this]
    simp [List.nodup_append, hnd, hd]

theorem foldBucket_props (rs : List WOutcome) :
    ∀ t : TaskState,
      (∀ p ∈ t.drawsBucket, p.2 ≠ 0) → (mapKeys t.drawsBucket).Nodup →
      (∀ p ∈ (foldComplete rs t).drawsBucket, p.2 ≠ 0) ∧
        (mapKeys (foldComplete rs t).drawsBucket).Nodup ∧
        (∀ k, lookupD (foldComplete rs t).drawsBucket k =
          lookupD t.drawsBucket k +
            (rs.map fun r => if r.totalDraws = k then 1 else 0).sum) := by
  induction rs with
  | nil => intro t hpos hnd; exact ⟨hpos, hnd, fun k => by simp [foldComplete]⟩
  | cons r rest ih =>
    intro t hpos hnd
    have step : foldComplete (r :: rest) t = foldComplete rest (handleWorkerComplete t r) := by
      simp [foldComplete, List.foldl_cons]
    have hb : (handleWorkerComplete t r).drawsBucket = bucketIncr t.drawsBucket r.totalDraws :=
      rfl
    have hpos₂ : ∀ p ∈ (handleWorkerComplete t r).drawsBucket, p.2 ≠ 0 := by
      rw [hb]; exact allPos_bucketIncr _ _ hpos
    have hnd₂ : (mapKeys (handleWorkerComplete t r).drawsBucket).Nodup := by
      rw [hb]; exact nodupKeys_bucketIncr _ _ hpos hnd
    obtain ⟨h1, h2, h3⟩ := ih (handleWorkerComplete t r) hpos₂ hnd₂
    rw [step]
    refine ⟨h1, h2, fun k => ?_⟩
    rw [h3 k, hb, lookupD_bucketIncr _ _ _ hpos]
    simp only [List.map_cons, List.sum_cons]
    have : (if r.totalDraws = k then 1 else 0) = (if r.totalDraws = k then (1 : ℕ) else 0) := rfl
    omega

theorem lookupD_foldAdd (l : List (String × ℕ)) :
    ∀ (counts : List (String × ℕ)) (k : String),
      lookupD (l.foldl (fun c e => addAssoc c e.1 e.2) counts) k =
        lookupD counts k + (l.map fun e => if e.1 = k then e.2 else 0).sum := by
  induction l with
  | nil => intro counts k; simp
  | cons e t ih =>
    intro counts k
    rw [List.foldl_cons, ih, lookupD_addAssoc]
    simp only [List.map_cons, List.sum_cons]
    omega

theorem foldComplete_charCounts (rs : List WOutcome) :
    ∀ (t : TaskState) (k : String),
      lookupD (foldComplete rs t).characterCounts k =
        lookupD t.characterCounts k +
          (rs.map fun r =>
            (r.characterCounts.map fun e => if e.1 = k then e.2 else 0).sum).sum := by
  induction rs with
  | nil => intro t k; simp [foldComplete]
  | cons r rest ih =>
    intro t k
    have step : foldComplete (r :: rest) t = foldComplete rest (handleWorkerComplete t r) := by
      simp [foldComplete, List.foldl_cons]
    rw [step, ih]
    have hc : (handleWorkerComplete t r).characterCounts =
        r.characterCounts.foldl (fun c e => addAssoc c e.1 e.2) t.characterCounts := rfl
    rw [hc, lookupD_foldAdd]
    simp only [List.map_cons, List.sum_cons]
    omega

theorem lookupD_eq_of_mem (b : List (ℕ × ℕ)) (d c : ℕ)
    (hnd : (mapKeys b).Nodup) (hmem : (d, c) ∈ b) : lookupD b d = c := by
  induction b with
  | nil => simp at hmem
  | cons p t ih =>
    obtain ⟨a, v⟩ := p
    have hnd' := hnd
    rw [mapKeys, List.map_cons, List.nodup_cons] at hnd'
    obtain ⟨hna, hndt⟩ := hnd'
    rcases List.mem_cons.mp hmem with h | h
    · injection h with h1 h2
      rw [lookupD, if_pos h1.symm, h2]
    · have had : ¬(a = d) := by
        intro hh
        subst hh
        exact hna (List.mem_map.mpr ⟨(a, c), h, rfl⟩)
      rw [lookupD, if_neg had]
      exact ih hndt h

theorem mem_of_lookupD (b : List (ℕ × ℕ)) (d c : ℕ)
    (h : lookupD b d = c) (hc : c ≠ 0) : (d, c) ∈ b := by
  induction b with
  | nil => rw [lookupD] at h; omega
  | cons p t ih =>
    obtain ⟨a, v⟩ := p
    by_cases had : a = d
    · rw [lookupD, if_pos had] at h
      subst had h
      exact List.mem_cons_self _ _
    · rw [lookupD, if_neg had] at h
      exact List.mem_cons_of_mem _ (ih h)

theorem bucket_perm_of_lookupD_eq (b1 b2 : List (ℕ × ℕ))
    (hpos1 : ∀ p ∈ b1, p.2 ≠ 0) (hpos2 : ∀ p ∈ b2, p.2 ≠ 0)
    (hnd1 : (mapKeys b1).Nodup) (hnd2 : (mapKeys b2).Nodup)
    (hl : ∀ k, lookupD b1 k = lookupD b2 k) : b1.Perm b2 := by
  refine (List.perm_ext_iff_of_nodup (hnd1.of_map) (hnd2.of_map)).mpr ?_
  rintro ⟨d, c⟩
  constructor
  · intro hmem
    have hc : c ≠ 0 := hpos1 (d, c) hmem
    have h1 : lookupD b1 d = c := lookupD_eq_of_mem b1 d c hnd1 hmem
    exact mem_of_lookupD b2 d c ((hl d).symm.trans h1) hc
  · intro hmem
    have hc : c ≠ 0 := hpos2 (d, c) hmem
    have h2 : lookupD b2 d = c := lookupD_eq_of_mem b2 d c hnd2 hmem
    exact mem_of_lookupD b1 d c ((hl d).trans h2) hc

theorem sorted_keyLt_of_keyLe (l : List (ℕ × ℕ))
    (hs : l.Sorted keyLe) (hnd : (mapKeys l).Nodup) : l.Sorted keyLt := by
  have hne : l.Pairwise fun a b : ℕ × ℕ => a.1 ≠ b.1 := List.pairwise_map.mp hnd
  have hand : l.Pairwise fun a b : ℕ × ℕ => keyLe a b ∧ a.1 ≠ b.1 :=
    List.pairwise_and_iff.mpr ⟨hs, hne⟩
  exact hand.imp fun h => lt_of_le_of_ne h.1 h.2

theorem sortedEntries_eq_of_perm (b1 b2 : List (ℕ × ℕ)) (hperm : b1.Perm b2)
    (hnd1 : (mapKeys b1).Nodup) : sortedEntries b1 = sortedEntries b2 := by
  have hp1 : (sortedEntries b1).Perm b1 := List.perm_insertionSort keyLe b1
  have hp2 : (sortedEntries b2).Perm b2 := List.perm_insertionSort keyLe b2
  have hp : (sortedEntries b1).Perm (sortedEntries b2) :=
    hp1.trans (hperm.trans hp2.symm)
  have hnd2 : (mapKeys b2).Nodup := ((hperm.map Prod.fst).nodup_iff).mp hnd1
  have hnds1 : (mapKeys (sortedEntries b1)).Nodup := ((hp1.map Prod.fst).nodup_iff).mpr hnd1
  have hnds2 : (mapKeys (sortedEntries b2)).Nodup := ((hp2.map Prod.fst).nodup_iff).mpr hnd2
  exact List.eq_of_perm_of_sorted hp
    (sorted_keyLt_of_keyLe _ (List.sorted_insertionSort keyLe b1) hnds1)
    (sorted_keyLt_of_keyLe _ (List.sorted_insertionSort keyLe b2) hnds2)

/-- Claim C8: folding the same multiset of trial outcomes in any completion
order yields the same `drawsBucket` and the same `characterCounts` as maps,
and consequently the very same derived statistics (mean, median, σ, …),
because every statistic is computed from the key-sorted bucket entries. -/
theorem C8_aggregator_order_independent (rs1 rs2 : List WOutcome) (hperm : rs1.Perm rs2) :
    (∀ d : ℕ, lookupD (foldComplete rs1 initTask).drawsBucket d =
      lookupD (foldComplete rs2 initTask).drawsBucket d) ∧
    (∀ c : String, lookupD (foldComplete rs1 initTask).characterCounts c =
      lookupD (foldComplete rs2 initTask).characterCounts c) ∧
    calculateStatisticalData (foldComplete rs1 initTask).drawsBucket =
      calculateStatisticalData (foldComplete rs2 initTask).drawsBucket := by
  have hinit1 : ∀ p ∈ (initTask).drawsBucket, p.2 ≠ 0 := by simp [initTask]
  have hinit2 : (mapKeys (initTask).drawsBucket).Nodup := by simp [initTask, mapKeys]
  obtain ⟨hpos1, hnd1, hl1⟩ := foldBucket_props rs1 initTask hinit1 hinit2
  obtain ⟨hpos2, hnd2, hl2⟩ := foldBucket_props rs2 initTask hinit1 hinit2
  have hlook : ∀ d, lookupD (foldComplete rs1 initTask).drawsBucket d =
      lookupD (foldComplete rs2 initTask).drawsBucket d := by
    intro d
    rw [hl1 d, hl2 d]
    have := (hperm.map fun r => if r.totalDraws = d then 1 else 0).sum_eq
    omega
  have hchar : ∀ c, lookupD (foldComplete rs1 initTask).characterCounts c =
      lookupD (foldComplete rs2 initTask).characterCounts c := by
    intro c
    rw [foldComplete_charCounts rs1 initTask c, foldComplete_charCounts rs2 initTask c]
    have := (hperm.map fun r =>
      (r.characterCounts.map fun e => if e.1 = c then e.2 else 0).sum).sum_eq
    omega
  have hbp : (foldComplete rs1 initTask).drawsBucket.Perm
      (foldComplete rs2 initTask).drawsBucket :=
    bucket_perm_of_lookupD_eq _ _ hpos1 hpos2 hnd1 hnd2 hlook
  have hse : sortedEntries (foldComplete rs1 initTask).drawsBucket =
      sortedEntries (foldComplete rs2 initTask).drawsBucket :=
    sortedEntries_eq_of_perm _ _ hbp hnd1
  refine ⟨hlook, hchar, ?_⟩
  rw [calculateStatisticalData, calculateStatisticalData, hse]

/-- Witness for C8 at a concrete pair of reversed completion orders. -/
theorem C8_aggregator_order_independent_witness :
    ([⟨3, [("A", 1)]⟩, ⟨7, [("A", 1), ("B", 2)]⟩] : List WOutcome).Perm
      [⟨7, [("A", 1), ("B", 2)]⟩, ⟨3, [("A", 1)]⟩] ∧
    ((∀ d : ℕ,
        lookupD (foldComplete [⟨3, [("A", 1)]⟩, ⟨7, [("A", 1), ("B", 2)]⟩] initTask).drawsBucket
            d =
          lookupD (foldComplete [⟨7, [("A", 1), ("B", 2)]⟩, ⟨3, [("A", 1)]⟩] initTask).drawsBucket
            d) ∧
      (∀ c : String,
        lookupD
            (foldComplete [⟨3, [("A", 1)]⟩, ⟨7, [("A", 1), ("B", 2)]⟩] initTask).characterCounts
            c =
          lookupD
            (foldComplete [⟨7, [("A", 1), ("B", 2)]⟩, ⟨3, [("A", 1)]⟩] initTask).characterCounts
            c) ∧
      calculateStatisticalData
          (foldComplete [⟨3, [("A", 1)]⟩, ⟨7, [("A", 1), ("B", 2)]⟩] initTask).drawsBucket =
        calculateStatisticalData
          (foldComplete [⟨7, [("A", 1), ("B", 2)]⟩, ⟨3, [("A", 1)]⟩] initTask).drawsBucket) :=
  ⟨by decide,
    C8_aggregator_order_independent [⟨3, [("A", 1)]⟩, ⟨7, [("A", 1), ("B", 2)]⟩]
      [⟨7, [("A", 1), ("B", 2)]⟩, ⟨3, [("A", 1)]⟩] (by decide)⟩

/-- Claim C10 counterexample: two configurations that are permutations of one
another with equal weights sort (stably) to different orders, so the sorted
configuration consumed by both execution paths — and hence the outcome of a
fixed random source — depends on the caller's insertion order: with
`u = 1/4`, the weighted selector picks `A` under one insertion order and `B`
under the other. -/
theorem C10_counterexample_equal_weights :
    ([⟨"A", 1, 1⟩, ⟨"B", 1, 1⟩] : List OperatorCfg).Perm
      ([⟨"B", 1, 1⟩, ⟨"A", 1, 1⟩] : List OperatorCfg) ∧
    sortByWeight [⟨"A", 1, 1⟩, ⟨"B", 1, 1⟩] ≠ sortByWeight [⟨"B", 1, 1⟩, ⟨"A", 1, 1⟩] ∧
    gpuOperators [⟨"A", 1, 1⟩, ⟨"B", 1, 1⟩] ≠ gpuOperators [⟨"B", 1, 1⟩, ⟨"A", 1, 1⟩] ∧
    weightedChoice ((sortByWeight [⟨"A", 1, 1⟩, ⟨"B", 1, 1⟩]).map OperatorCfg.name)
        ((sortByWeight [⟨"A", 1, 1⟩, ⟨"B", 1, 1⟩]).map OperatorCfg.weight) (1 / 4) = "A" ∧
    weightedChoice ((sortByWeight [⟨"B", 1, 1⟩, ⟨"A", 1, 1⟩]).map OperatorCfg.name)
        ((sortByWeight [⟨"B", 1, 1⟩, ⟨"A", 1, 1⟩]).map OperatorCfg.weight) (1 / 4) = "B" := by
  have hsA : sortByWeight [(⟨"A", 1, 1⟩ : OperatorCfg), ⟨"B", 1, 1⟩] =
      [⟨"A", 1, 1⟩, ⟨"B", 1, 1⟩] := by decide
  have hsB : sortByWeight [(⟨"B", 1, 1⟩ : OperatorCfg), ⟨"A", 1, 1⟩] =
      [⟨"B", 1, 1⟩, ⟨"A", 1, 1⟩] := by decide
  refine ⟨by decide, by decide, by decide, ?_, ?_⟩
  · rw [hsA]
    show weightedChoice ["A", "B"] [1, 1] (1 / 4) = "A"
    rw [weightedChoice]
    norm_num [wcWalk]
  · rw [hsB]
    show weightedChoice ["B", "A"] [1, 1] (1 / 4) = "B"
    rw [weightedChoice]
    norm_num [wcWalk]

/-- Claim C10 (amended): `runSimulation` re-orders the caller's configuration
by ascending weight (stable sort) and both execution paths consume that
sorted order — the workers get the sorted configuration, the GPU operator
list and its `categoryCDF` are built over it.  Provided all weights are
pairwise distinct, the sorted order is unique, so the sorted configuration,
the GPU operator list and the category CDF are invariant under permutation of
the caller's insertion order; with tied weights the stable sort preserves
insertion order and the invariance fails (see the counterexample). -/
theorem C10_sorted_config_invariant_distinct_weights (l1 l2 : List OperatorCfg)
    (hperm : l1.Perm l2) (hw : (l1.map OperatorCfg.weight).Nodup) :
    sortByWeight l1 = sortByWeight l2 ∧
    gpuOperators l1 = gpuOperators l2 ∧
    categoryCDF (gpuOperators l1) = categoryCDF (gpuOperators l2) := by
  have hp1 := List.perm_insertionSort weightLe l1
  have hp2 := List.perm_insertionSort weightLe l2
  have hp : (sortByWeight l1).Perm (sortByWeight l2) := hp1.trans (hperm.trans hp2.symm)
  have hws1 : ((sortByWeight l1).map OperatorCfg.weight).Nodup :=
    ((hp1.map OperatorCfg.weight).nodup_iff).mpr hw
  have hw2 : (l2.map OperatorCfg.weight).Nodup :=
    ((hperm.map OperatorCfg.weight).nodup_iff).mp hw
  have hws2 : ((sortByWeight l2).map OperatorCfg.weight).Nodup :=
    ((hp2.map OperatorCfg.weight).nodup_iff).mpr hw2
  have hs1 : (sortByWeight l1).Sorted weightLt := by
    have hsle := List.sorted_insertionSort weightLe l1
    have hne := List.pairwise_map.mp hws1
    exact (List.pairwise_and_iff.mpr ⟨hsle, hne⟩).imp fun h => lt_of_le_of_ne h.1 h.2
  have hs2 : (sortByWeight l2).Sorted weightLt := by
    have hsle := List.sorted_insertionSort weightLe l2
    have hne := List.pairwise_map.mp hws2
    exact (List.pairwise_and_iff.mpr ⟨hsle, hne⟩).imp fun h => lt_of_le_of_ne h.1 h.2
  have heq : sortByWeight l1 = sortByWeight l2 := List.eq_of_perm_of_sorted hp hs1 hs2
  exact ⟨heq, by rw [gpuOperators, gpuOperators, heq], by rw [gpuOperators, gpuOperators, heq]⟩

/-- Witness for the amended C10 at a two-category distinct-weight
configuration and its reversal. -/
theorem C10_sorted_config_invariant_distinct_weights_witness :
    (([⟨"A", 1, 1⟩, ⟨"B", 2, 1⟩] : List OperatorCfg).Perm
        [⟨"B", 2, 1⟩, ⟨"A", 1, 1⟩] ∧
      (([⟨"A", 1, 1⟩, ⟨"B", 2, 1⟩] : List OperatorCfg).map OperatorCfg.weight).Nodup) ∧
    (sortByWeight [⟨"A", 1, 1⟩, ⟨"B", 2, 1⟩] = sortByWeight [⟨"B", 2, 1⟩, ⟨"A", 1, 1⟩] ∧
      gpuOperators [⟨"A", 1, 1⟩, ⟨"B", 2, 1⟩] = gpuOperators [⟨"B", 2, 1⟩, ⟨"A", 1, 1⟩] ∧
      categoryCDF (gpuOperators [⟨"A", 1, 1⟩, ⟨"B", 2, 1⟩]) =
        categoryCDF (gpuOperators [⟨"B", 2, 1⟩, ⟨"A", 1, 1⟩])) :=
  ⟨⟨by decide, by decide⟩,
    C10_sorted_config_invariant_distinct_weights [⟨"A", 1, 1⟩, ⟨"B", 2, 1⟩]
      [⟨"B", 2, 1⟩, ⟨"A", 1, 1⟩] (by decide) (by decide)⟩

end ArkGacha

